import Mathlib

set_option maxRecDepth 8000

/-! Shallow embedding of the ogrim XML builder (src/src/lib.rs, src/shared.rs,
src/macros/src/parse/mod.rs). Rust strings are modelled as lists of
characters; fallible operations (Rust panics and `Result`s) return `Option`
or `Except`. -/

abbrev Str := List Char

/-- Character class from `EscapedWriter::write_str` (src/src/lib.rs:464): a
character needs escaping iff it is `<`, `>`, `&`, or a double quote while
quote-escaping is enabled. -/
def needs_escape (escape_quote : Bool) (c : Char) : Bool :=
  c = '<' || c = '>' || c = '&' || (escape_quote && c = '"')

/-- Entity replacement from the byte match in `EscapedWriter::write_str`
(src/src/lib.rs:469-475). Only called on characters that need escaping, so
the final branch corresponds to the quote character. -/
def entity (c : Char) : Str :=
  if c = '<' then "&lt;".toList
  else if c = '>' then "&gt;".toList
  else if c = '&' then "&amp;".toList
  else "&quot;".toList

/-- Escaping pass of `escape_into` / `EscapedWriter::write_str`
(src/src/lib.rs:449-481): each character needing escaping is replaced by its
entity form, every other character is copied verbatim. -/
def escape_into (escape_quote : Bool) : Str → Str
  | [] => []
  | c :: rest =>
    if needs_escape escape_quote c then entity c ++ escape_into escape_quote rest
    else c :: escape_into escape_quote rest

/-- Entity decoder (the spec's notion of "decoding the entity forms"): each
of the four entity sequences is turned back into its character, all other
characters pass through unchanged. -/
def unescape : Str → Str
  | [] => []
  | '&' :: 'l' :: 't' :: ';' :: rest => '<' :: unescape rest
  | '&' :: 'g' :: 't' :: ';' :: rest => '>' :: unescape rest
  | '&' :: 'a' :: 'm' :: 'p' :: ';' :: rest => '&' :: unescape rest
  | '&' :: 'q' :: 'u' :: 'o' :: 't' :: ';' :: rest => '"' :: unescape rest
  | c :: rest => c :: unescape rest

/-- XML name-start character class from `is_name_start_char`
(src/shared.rs:15-34). -/
def is_name_start_char (c : Char) : Bool :=
  c = ':' || ('A' ≤ c && c ≤ 'Z') || c = '_' || ('a' ≤ c && c ≤ 'z')
  || (0xC0 ≤ c.toNat && c.toNat ≤ 0xD6) || (0xD8 ≤ c.toNat && c.toNat ≤ 0xF6)
  || (0xF8 ≤ c.toNat && c.toNat ≤ 0x2FF) || (0x370 ≤ c.toNat && c.toNat ≤ 0x37D)
  || (0x37F ≤ c.toNat && c.toNat ≤ 0x1FFF) || (0x200C ≤ c.toNat && c.toNat ≤ 0x200D)
  || (0x2070 ≤ c.toNat && c.toNat ≤ 0x218F) || (0x2C00 ≤ c.toNat && c.toNat ≤ 0x2FEF)
  || (0x3001 ≤ c.toNat && c.toNat ≤ 0xD7FF) || (0xF900 ≤ c.toNat && c.toNat ≤ 0xFDCF)
  || (0xFDF0 ≤ c.toNat && c.toNat ≤ 0xFFFD) || (0x10000 ≤ c.toNat && c.toNat ≤ 0xEFFFF)

/-- XML name-continue character class from `is_name_char`
(src/shared.rs:36-45). -/
def is_name_char (c : Char) : Bool :=
  is_name_start_char c || c = '-' || c = '.' || ('0' ≤ c && c ≤ '9')
  || c.toNat = 0xB7 || (0x300 ≤ c.toNat && c.toNat ≤ 0x36F)
  || (0x203F ≤ c.toNat && c.toNat ≤ 0x2040)

/-- XML Name validator from `is_name` (src/shared.rs:7-13): non-empty, first
character a name-start character, remaining characters name-continue. -/
def is_name : Str → Bool
  | [] => false
  | c :: rest => is_name_start_char c && rest.all is_name_char

/-- Output format (src/src/lib.rs:434-443). -/
inductive Format where
  | terse
  | pretty (indentation : Str)
deriving DecidableEq

/-- Prolog version (src/src/lib.rs:411-415). -/
inductive Version where
  | v1_0
  | v1_1
deriving DecidableEq

/-- Runtime emitter state (src/src/lib.rs:284-288). -/
structure Document where
  buf : Str
  depth : Nat
  format : Format
deriving DecidableEq

/-- Indentation repeated `n` times, as produced by the `for` loop in
`Document::newline` (src/src/lib.rs:403-405). -/
def repeatList (n : Nat) (l : Str) : Str :=
  match n with
  | 0 => []
  | k + 1 => l ++ repeatList k l

/-- `Document::newline` (src/src/lib.rs:399-407): in Pretty mode append a
newline plus `depth` repetitions of the indentation; in Terse mode do
nothing. -/
def Document.newline (d : Document) : Document :=
  match d.format with
  | .terse => d
  | .pretty ind => { d with buf := d.buf ++ '\n' :: repeatList d.depth ind }

/-- `Document::new` (src/src/lib.rs:309-328). Note the source writes
` standalone={}` with the yes/no value unquoted. -/
def Document.new (version : Version) (standalone : Option Bool) (format : Format) : Document :=
  let v := match version with
    | .v1_0 => "1.0".toList
    | .v1_1 => "1.1".toList
  let buf0 := "<?xml version=\"".toList ++ v ++ "\" encoding=\"UTF-8\"".toList
  let buf1 := match standalone with
    | some b => buf0 ++ " standalone=".toList ++ (if b then "yes".toList else "no".toList)
    | none => buf0
  Document.newline { buf := buf1 ++ "?>".toList, depth := 0, format := format }

/-- `Document::open_tag` (src/src/lib.rs:332-334): writes `<name`, no
validation of the name. -/
def Document.open_tag (d : Document) (name : Str) : Document :=
  { d with buf := d.buf ++ "<".toList ++ name }

/-- `Document::attr` (src/src/lib.rs:337-341): writes a space, the name,
`="`, the quote-escaped value and the closing quote; no validation of the
name. -/
def Document.attr (d : Document) (name : Str) (value : Str) : Document :=
  { d with buf := d.buf ++ " ".toList ++ name ++ "=\"".toList
                  ++ escape_into true value ++ "\"".toList }

/-- Result of `Document::attrs`: either normal completion or a Rust panic,
which leaves the buffer in the partially written state (the method takes
`&mut self`, so everything written before the panic stays in the buffer). -/
inductive AttrsResult where
  | ok (d : Document)
  | panicked (d : Document) (badName : Str)
deriving DecidableEq

/-- `Document::attrs` (src/src/lib.rs:344-363): for each pair, first write
` name="` into the buffer, then re-read the slice
`buf[len_before + 1 .. buf.len() - 2]` as the written name and panic if it
is not a valid XML name; otherwise append the quote-escaped value and the
closing quote and continue with the next pair. -/
def Document.attrs (d : Document) : List (Str × Str) → AttrsResult
  | [] => .ok d
  | (name, value) :: rest =>
    let len_before := d.buf.length
    let buf1 := d.buf ++ " ".toList ++ name ++ "=\"".toList
    let written_name := (buf1.take (buf1.length - 2)).drop (len_before + 1)
    if is_name written_name = false then
      .panicked { d with buf := buf1 } written_name
    else
      Document.attrs { d with buf := buf1 ++ escape_into true value ++ "\"".toList } rest

/-- `Document::close_start_tag` (src/src/lib.rs:366-370): writes `>`,
increments depth, then the formatting newline. -/
def Document.close_start_tag (d : Document) : Document :=
  Document.newline { d with buf := d.buf ++ ">".toList, depth := d.depth + 1 }

/-- `Document::close_empty_elem_tag` (src/src/lib.rs:373-376): writes `/>`
in Terse mode or ` />` otherwise, then the formatting newline. -/
def Document.close_empty_elem_tag (d : Document) : Document :=
  let s := match d.format with
    | .terse => "/>".toList
    | .pretty _ => " />".toList
  Document.newline { d with buf := d.buf ++ s }

/-- `Document::end_tag` (src/src/lib.rs:379-389): asserts depth > 0 (a Rust
panic, modelled as `none`); in Pretty mode asserts the buffer ends with one
indentation unit and truncates it; decrements depth, writes `</name>`, then
the formatting newline. -/
def Document.end_tag (d : Document) (name : Str) : Option Document :=
  if d.depth = 0 then none
  else
    match d.format with
    | .pretty ind =>
      if ind.isSuffixOf d.buf then
        some (Document.newline
          { buf := (d.buf.take (d.buf.length - ind.length)) ++ "</".toList ++ name ++ ">".toList,
            depth := d.depth - 1, format := d.format })
      else none
    | .terse =>
      some (Document.newline
        { buf := d.buf ++ "</".toList ++ name ++ ">".toList,
          depth := d.depth - 1, format := d.format })

/-- `Document::text` (src/src/lib.rs:392-395): writes the value through the
escaping writer with quote-escaping disabled, then the formatting newline. -/
def Document.text (d : Document) (t : Str) : Document :=
  Document.newline { d with buf := d.buf ++ escape_into false t }

/-- One emitter operation (the private `Document` API of src/src/lib.rs). -/
inductive Op where
  | open_tag (name : Str)
  | attr (name value : Str)
  | attrsOp (pairs : List (Str × Str))
  | close_start_tag
  | close_empty_elem_tag
  | end_tag (name : Str)
  | text (t : Str)
deriving DecidableEq

/-- Execute one emitter operation; `none` models an unrecoverable Rust
panic aborting the build. -/
def step (d : Document) : Op → Option Document
  | .open_tag n => some (d.open_tag n)
  | .attr n v => some (d.attr n v)
  | .attrsOp ps =>
    match d.attrs ps with
    | .ok d' => some d'
    | .panicked _ _ => none
  | .close_start_tag => some d.close_start_tag
  | .close_empty_elem_tag => some d.close_empty_elem_tag
  | .end_tag n => d.end_tag n
  | .text t => some (d.text t)

/-- Execute a sequence of emitter operations. -/
def run (d : Document) : List Op → Option Document
  | [] => some d
  | op :: ops =>
    match step d op with
    | none => none
    | some d' => run d' ops

/-- Number of `close_start_tag` operations in a sequence. -/
def countCloseStart : List Op → Nat
  | [] => 0
  | .close_start_tag :: ops => countCloseStart ops + 1
  | _ :: ops => countCloseStart ops

/-- Number of `end_tag` operations in a sequence. -/
def countEndTag : List Op → Nat
  | [] => 0
  | .end_tag _ :: ops => countEndTag ops + 1
  | _ :: ops => countEndTag ops

/-- Text written into the buffer for one valid attribute pair by
`Document::attr` / `Document::attrs`. -/
def attrText (name value : Str) : Str :=
  " ".toList ++ name ++ "=\"".toList ++ escape_into true value ++ "\"".toList

/-- Concatenation of the attribute texts of a batch, in iteration order. -/
def concatAttrTexts : List (Str × Str) → Str
  | [] => []
  | (n, v) :: rest => attrText n v ++ concatAttrTexts rest

/-- Parse error (src/macros/src/err.rs): message plus optional source
span. Spans are modelled as natural-number tags carried by tokens. -/
structure Error where
  span : Option Nat
  msg : String
deriving DecidableEq

/-- Delimiter of a `proc_macro2::Group`. -/
inductive Delim where
  | paren
  | brace
  | bracket
deriving DecidableEq

/-- A `proc_macro2::TokenTree`. A literal token carries its textual form
and, when it is a string literal, the decoded string value (`litrs`'s
`StringLit::try_from` succeeds exactly on those). -/
inductive TokenTree where
  | ident (s : Str) (span : Nat)
  | lit (txt : Str) (strVal : Option Str) (span : Nat)
  | punct (c : Char) (span : Nat)
  | group (delim : Delim) (inner : List TokenTree) (span : Nat)

/-- Span of a token. -/
def TokenTree.span : TokenTree → Nat
  | .ident _ sp => sp
  | .lit _ _ sp => sp
  | .punct _ sp => sp
  | .group _ _ sp => sp

/-- `is_punct` (src/macros/src/parse/mod.rs:30-32). -/
def is_punct (tt : TokenTree) (c : Char) : Bool :=
  match tt with
  | .punct c' _ => c' = c
  | _ => false

/-- `ParseBuf::eof_err` for a top-level buffer (src/macros/src/parse/buf.rs:96-101). -/
def eof_err : Error := ⟨none, "unexpected end of input"⟩

/-- `ParseBuf::expect_punct` (src/macros/src/parse/buf.rs:54-62), returning
the span of the consumed punctuation token and the remaining tokens. -/
def expect_punct (c : Char) (buf : List TokenTree) : Except Error (Nat × List TokenTree) :=
  match buf with
  | [] => .error eof_err
  | .punct c' sp :: rest =>
    if c' = c then .ok (sp, rest) else .error ⟨some sp, "expected punctuation"⟩
  | t :: _ => .error ⟨some t.span, "expected punctuation"⟩

/-- `ParseBuf::expect_ident` (src/macros/src/parse/buf.rs:64-72). -/
def expect_ident (buf : List TokenTree) : Except Error (Str × List TokenTree) :=
  match buf with
  | [] => .error eof_err
  | .ident s _ :: rest => .ok (s, rest)
  | t :: _ => .error ⟨some t.span, "expected identifier"⟩

/-- `StringLit::try_from` on a token: succeeds exactly on string-literal
tokens, yielding the decoded value. -/
def string_lit : TokenTree → Option Str
  | .lit _ (some v) _ => some v
  | _ => none

/-- The four characters allowed in Rust identifiers but not in XML names
(src/macros/src/parse/mod.rs:280). -/
def invalid_ident_char (c : Char) : Bool :=
  c.toNat = 0xAA || c.toNat = 0xB5 || c.toNat = 0xBA || c.toNat = 0x2054

/-- Test for `s.starts_with(|c| c.is_digit(10))` on a literal's text. -/
def starts_with_digit : Str → Bool
  | [] => false
  | c :: _ => c.isDigit

/-- Final part of `ast::Name::parse` (src/macros/src/parse/mod.rs:319-324):
an empty accumulated name is an "expected name" error at the current token;
on an empty buffer the source would panic on `buf.curr().unwrap()`, also a
failure. -/
def nameFinish (out : Str) (buf : List TokenTree) : Except Error (Str × List TokenTree) :=
  if out.isEmpty then
    match buf with
    | t :: _ => .error ⟨some t.span, "expected name"⟩
    | [] => .error ⟨none, "curr unwrap on empty buffer"⟩
  else .ok (out, buf)

/-- The token-eating loop of `ast::Name::parse`
(src/macros/src/parse/mod.rs:268-317). The literal branch mirrors the
source exactly: it neither consults nor updates `eat_non_punct`. -/
def nameLoop (eat_non_punct : Bool) (out : Str) : List TokenTree → Except Error (Str × List TokenTree)
  | [] => nameFinish out []
  | .ident s sp :: rest =>
    if eat_non_punct = false then nameFinish out (.ident s sp :: rest)
    else if s.any invalid_ident_char then
      .error ⟨none, "Character is not allowed in XML names"⟩
    else nameLoop false (out ++ s) rest
  | .lit txt sv sp :: rest =>
    if starts_with_digit txt then nameLoop eat_non_punct (out ++ txt) rest
    else nameFinish out (.lit txt sv sp :: rest)
  | .punct c sp :: rest =>
    if c = ':' || (out.isEmpty = false && (c = '.' || c = '-')) then
      nameLoop true (out ++ [c]) rest
    else nameFinish out (.punct c sp :: rest)
  | .group dl inner sp :: rest => nameFinish out (.group dl inner sp :: rest)

/-- `ast::Name::parse` (src/macros/src/parse/mod.rs:199-326): a leading
string literal is the escape hatch, validated against `is_name`; otherwise
the token-eating heuristic loop runs with `eat_non_punct` initially true. -/
def parseName (buf : List TokenTree) : Except Error (Str × List TokenTree) :=
  match buf with
  | [] => .error eof_err
  | t :: rest =>
    match string_lit t with
    | some s =>
      if is_name s = false then
        .error ⟨some t.span, "string contains characters that are not allowed in XML names"⟩
      else .ok (s, rest)
    | none => nameLoop true [] (t :: rest)

/-- `ast::AttrValue` (src/macros/src/ast.rs:38-42). -/
inductive AttrValue where
  | literal (s : Str)
  | expr (ts : List TokenTree)

/-- `ast::AttrValue::parse` (src/macros/src/parse/mod.rs:362-381). -/
def parseAttrValue (buf : List TokenTree) : Except Error (AttrValue × List TokenTree) :=
  match buf with
  | [] => .error eof_err
  | .lit _ sv sp :: rest =>
    match sv with
    | some v => .ok (.literal v, rest)
    | none => .error ⟨some sp, "expected string literal"⟩
  | .group .brace inner _ :: rest => .ok (.expr inner, rest)
  | t :: _ => .error ⟨some t.span, "expected attribute value"⟩

mutual
/-- `ast::Element` (src/macros/src/ast.rs:19-25). -/
inductive Element where
  | mk (name : Str) (attrs : List (Str × AttrValue)) (children : List Child) (empty : Bool)

/-- `ast::Child` (src/macros/src/ast.rs:27-36). -/
inductive Child where
  | text (s : Str)
  | textExpr (ts : List TokenTree)
  | closure (arg : Str) (body : List TokenTree)
  | element (e : Element)
end

/-- End-tag handling of `ast::Element::parse`
(src/macros/src/parse/mod.rs:178-192), given the start tag's name: expect
`<` (remembering its span) and `/`; an immediate `>` is the shorthand
closing the currently expected element; otherwise parse a Name, fail with
the "does not match" error at the `<` span if it differs from the start
name, and expect `>`. -/
def parseEndTag (name : Str) (buf : List TokenTree) : Except Error (List TokenTree) :=
  match expect_punct '<' buf with
  | .error e => .error e
  | .ok (end_span, buf) =>
    match expect_punct '/' buf with
    | .error e => .error e
    | .ok (_, buf) =>
      match buf with
      | [] => .error eof_err
      | t :: rest =>
        if is_punct t '>' then .ok rest
        else
          match parseName (t :: rest) with
          | .error e => .error e
          | .ok (ending_name, buf) =>
            if ending_name ≠ name then
              .error ⟨some end_span,
                "end tag " ++ String.mk ending_name
                  ++ " does not match start tag " ++ String.mk name⟩
            else
              match expect_punct '>' buf with
              | .error e => .error e
              | .ok (_, buf) => .ok buf

mutual
/-- `ast::Element::parse` (src/macros/src/parse/mod.rs:144-197), with the
opening `<` already consumed; `fuel` bounds the recursion. -/
def parseElement (fuel : Nat) (buf : List TokenTree) : Except Error (Element × List TokenTree) :=
  match fuel with
  | 0 => .error ⟨none, "recursion limit"⟩
  | f + 1 =>
    match parseName buf with
    | .error e => .error e
    | .ok (name, buf) =>
      match parseAttrs f buf with
      | .error e => .error e
      | .ok (attrs, isEmpty, buf) =>
        if isEmpty then .ok (.mk name attrs [] true, buf)
        else
          match parseChildren f buf with
          | .error e => .error e
          | .ok (children, buf) =>
            match parseEndTag name buf with
            | .error e => .error e
            | .ok buf => .ok (.mk name attrs children false, buf)

/-- Attribute loop of `ast::Element::parse`
(src/macros/src/parse/mod.rs:148-171): `>` ends the start tag, `/>` makes
the element self-closing, anything else is a `name=value` pair. -/
def parseAttrs (fuel : Nat) (buf : List TokenTree) :
    Except Error (List (Str × AttrValue) × Bool × List TokenTree) :=
  match fuel with
  | 0 => .error ⟨none, "recursion limit"⟩
  | f + 1 =>
    match buf with
    | [] => .error eof_err
    | t :: rest =>
      if is_punct t '>' then .ok ([], false, rest)
      else if is_punct t '/' then
        match expect_punct '>' rest with
        | .error e => .error e
        | .ok (_, buf) => .ok ([], true, buf)
      else
        match parseName (t :: rest) with
        | .error e => .error e
        | .ok (name, buf) =>
          match expect_punct '=' buf with
          | .error e => .error e
          | .ok (_, buf) =>
            match parseAttrValue buf with
            | .error e => .error e
            | .ok (value, buf) =>
              match parseAttrs f buf with
              | .error e => .error e
              | .ok (attrs, isEmpty, buf) => .ok ((name, value) :: attrs, isEmpty, buf)

/-- Children loop of `ast::Element::parse`
(src/macros/src/parse/mod.rs:173-176): children are parsed until the
current and next tokens are `<` and `/`; both lookaheads failing at end of
input is an error. -/
def parseChildren (fuel : Nat) (buf : List TokenTree) :
    Except Error (List Child × List TokenTree) :=
  match fuel with
  | 0 => .error ⟨none, "recursion limit"⟩
  | f + 1 =>
    match buf with
    | [] => .error eof_err
    | [_] => .error eof_err
    | t1 :: t2 :: rest =>
      if is_punct t1 '<' && is_punct t2 '/' then .ok ([], t1 :: t2 :: rest)
      else
        match parseChild f (t1 :: t2 :: rest) with
        | .error e => .error e
        | .ok (c, buf) =>
          match parseChildren f buf with
          | .error e => .error e
          | .ok (cs, buf) => .ok (c :: cs, buf)

/-- `ast::Child::parse` (src/macros/src/parse/mod.rs:328-360). -/
def parseChild (fuel : Nat) (buf : List TokenTree) : Except Error (Child × List TokenTree) :=
  match fuel with
  | 0 => .error ⟨none, "recursion limit"⟩
  | f + 1 =>
    match buf with
    | [] => .error eof_err
    | .lit _ sv sp :: rest =>
      match sv with
      | some v => .ok (.text v, rest)
      | none => .error ⟨some sp, "expected string literal"⟩
    | .group .brace inner _ :: rest =>
      if (match inner with | .punct '|' _ :: _ => true | _ => false) then
        match expect_punct '|' inner with
        | .error e => .error e
        | .ok (_, inner) =>
          match expect_ident inner with
          | .error e => .error e
          | .ok (arg, inner) =>
            match expect_punct '|' inner with
            | .error e => .error e
            | .ok (_, body) => .ok (.closure arg body, rest)
      else .ok (.textExpr inner, rest)
    | .punct '<' _ :: rest =>
      match parseElement f rest with
      | .error e => .error e
      | .ok (e, buf) => .ok (.element e, buf)
    | t :: _ => .error ⟨some t.span, "expected element child"⟩
end

/-- Checks that every ampersand in a string occurs only as the start of one
of the four entity forms (the precise sense in which escaped output contains
"no literal occurrence" of `&`). -/
def onlyEntityAmps : Str → Bool
  | [] => true
  | '&' :: 'l' :: 't' :: ';' :: rest => onlyEntityAmps rest
  | '&' :: 'g' :: 't' :: ';' :: rest => onlyEntityAmps rest
  | '&' :: 'a' :: 'm' :: 'p' :: ';' :: rest => onlyEntityAmps rest
  | '&' :: 'q' :: 'u' :: 'o' :: 't' :: ';' :: rest => onlyEntityAmps rest
  | '&' :: _ => false
  | _ :: rest => onlyEntityAmps rest

/-! Helper lemmas. -/

theorem une_lt (l : Str) : unescape ('&' :: 'l' :: 't' :: ';' :: l) = '<' :: unescape l := rfl

theorem une_gt (l : Str) : unescape ('&' :: 'g' :: 't' :: ';' :: l) = '>' :: unescape l := rfl

theorem une_amp (l : Str) : unescape ('&' :: 'a' :: 'm' :: 'p' :: ';' :: l) = '&' :: unescape l := rfl

theorem une_quot (l : Str) :
    unescape ('&' :: 'q' :: 'u' :: 'o' :: 't' :: ';' :: l) = '"' :: unescape l := rfl

set_option maxHeartbeats 1000000 in
theorem une_cons (c : Char) (l : Str) (h : ¬ c = '&') :
    unescape (c :: l) = c :: unescape l := by
  rw [unescape.eq_def]
  split <;> simp_all

theorem oea_lt (l : Str) :
    onlyEntityAmps ('&' :: 'l' :: 't' :: ';' :: l) = onlyEntityAmps l := rfl

theorem oea_gt (l : Str) :
    onlyEntityAmps ('&' :: 'g' :: 't' :: ';' :: l) = onlyEntityAmps l := rfl

theorem oea_amp (l : Str) :
    onlyEntityAmps ('&' :: 'a' :: 'm' :: 'p' :: ';' :: l) = onlyEntityAmps l := rfl

theorem oea_quot (l : Str) :
    onlyEntityAmps ('&' :: 'q' :: 'u' :: 'o' :: 't' :: ';' :: l) = onlyEntityAmps l := rfl

set_option maxHeartbeats 1000000 in
theorem oea_cons (c : Char) (l : Str) (h : ¬ c = '&') :
    onlyEntityAmps (c :: l) = onlyEntityAmps l := by
  rw [onlyEntityAmps.eq_def]
  split <;> simp_all

theorem needs_escape_iff (q : Bool) (c : Char) :
    needs_escape q c = true ↔ (c = '<' ∨ c = '>' ∨ c = '&' ∨ (q = true ∧ c = '"')) := by
  unfold needs_escape
  cases q <;> simp <;> tauto

theorem not_mem_entity (c : Char) :
    '<' ∉ entity c ∧ '>' ∉ entity c ∧ '"' ∉ entity c := by
  unfold entity
  split
  · decide
  · split
    · decide
    · split
      · decide
      · decide

theorem not_mem_escape_into (q : Bool) (ch : Char)
    (hch : ch = '<' ∨ ch = '>' ∨ (q = true ∧ ch = '"')) (s : Str) :
    ch ∉ escape_into q s := by
  induction s with
  | nil => simp [escape_into]
  | cons c rest ih =>
    unfold escape_into
    by_cases h : needs_escape q c = true
    · rw [if_pos h]
      intro hmem
      rcases List.mem_append.1 hmem with hm | hm
      · rcases hch with h1 | h1 | ⟨_, h1⟩ <;> subst h1
        · exact (not_mem_entity c).1 hm
        · exact (not_mem_entity c).2.1 hm
        · exact (not_mem_entity c).2.2 hm
      · exact ih hm
    · rw [if_neg h]
      intro hmem
      rcases List.mem_cons.1 hmem with hm | hm
      · subst hm
        apply h
        apply (needs_escape_iff q ch).2
        tauto
      · exact ih hm

theorem oea_escape_into (q : Bool) (s : Str) : onlyEntityAmps (escape_into q s) = true := by
  induction s with
  | nil => rfl
  | cons c rest ih =>
    unfold escape_into
    by_cases h : needs_escape q c = true
    · rw [if_pos h]
      rcases (needs_escape_iff q c).1 h with h1 | h1 | h1 | ⟨_, h1⟩ <;> subst h1
      · show onlyEntityAmps ('&' :: 'l' :: 't' :: ';' :: escape_into q rest) = true
        rw [oea_lt, ih]
      · show onlyEntityAmps ('&' :: 'g' :: 't' :: ';' :: escape_into q rest) = true
        rw [oea_gt, ih]
      · show onlyEntityAmps ('&' :: 'a' :: 'm' :: 'p' :: ';' :: escape_into q rest) = true
        rw [oea_amp, ih]
      · show onlyEntityAmps ('&' :: 'q' :: 'u' :: 'o' :: 't' :: ';' :: escape_into q rest) = true
        rw [oea_quot, ih]
    · rw [if_neg h]
      have hc : ¬ c = '&' := by
        intro hc
        subst hc
        exact h (by simp [needs_escape])
      rw [oea_cons c _ hc, ih]

theorem unescape_escape_into (q : Bool) (s : Str) : unescape (escape_into q s) = s := by
  induction s with
  | nil => rfl
  | cons c rest ih =>
    unfold escape_into
    by_cases h : needs_escape q c = true
    · rw [if_pos h]
      rcases (needs_escape_iff q c).1 h with h1 | h1 | h1 | ⟨_, h1⟩ <;> subst h1
      · show unescape ('&' :: 'l' :: 't' :: ';' :: escape_into q rest) = '<' :: rest
        rw [une_lt, ih]
      · show unescape ('&' :: 'g' :: 't' :: ';' :: escape_into q rest) = '>' :: rest
        rw [une_gt, ih]
      · show unescape ('&' :: 'a' :: 'm' :: 'p' :: ';' :: escape_into q rest) = '&' :: rest
        rw [une_amp, ih]
      · show unescape ('&' :: 'q' :: 'u' :: 'o' :: 't' :: ';' :: escape_into q rest) = '"' :: rest
        rw [une_quot, ih]
    · rw [if_neg h]
      have hc : ¬ c = '&' := by
        intro hc
        subst hc
        exact h (by simp [needs_escape])
      rw [une_cons c _ hc, ih]

theorem newline_depth (d : Document) : (Document.newline d).depth = d.depth := by
  rcases d with ⟨b, dep, fmt⟩
  cases fmt <;> simp [Document.newline]

theorem newline_buf (d : Document) : ∃ t, (Document.newline d).buf = d.buf ++ t := by
  rcases d with ⟨b, dep, fmt⟩
  cases fmt with
  | terse => exact ⟨[], by simp [Document.newline]⟩
  | pretty ind => exact ⟨'\n' :: repeatList dep ind, by simp [Document.newline]⟩

theorem written_name_eq (bs n : Str) :
    ((bs ++ " ".toList ++ n ++ "=\"".toList).take
      ((bs ++ " ".toList ++ n ++ "=\"".toList).length - 2)).drop (bs.length + 1) = n := by
  have h2 : ("=\"".toList : Str).length = 2 := rfl
  have h1 : (" ".toList : Str).length = 1 := rfl
  have hlen : (bs ++ " ".toList ++ n).length
      = (bs ++ " ".toList ++ n ++ "=\"".toList).length - 2 := by
    simp [List.length_append, h1, h2]
    omega
  rw [List.take_left' hlen]
  have hd : (bs ++ " ".toList).length = bs.length + 1 := by
    simp [List.length_append, h1]
  exact List.drop_left' hd

theorem attrs_cons (d : Document) (name value : Str) (rest : List (Str × Str)) :
    Document.attrs d ((name, value) :: rest)
      = if is_name name = false then
          .panicked { d with buf := d.buf ++ " ".toList ++ name ++ "=\"".toList } name
        else
          Document.attrs
            { d with buf := d.buf ++ " ".toList ++ name ++ "=\"".toList
                            ++ escape_into true value ++ "\"".toList } rest := by
  have hw := written_name_eq d.buf name
  simp only [Document.attrs]
  rw [hw]

theorem end_tag_zero (d : Document) (n : Str) (h : d.depth = 0) :
    Document.end_tag d n = none := by
  unfold Document.end_tag
  rw [if_pos h]

theorem end_tag_some_depth (d : Document) (n : Str) (d' : Document)
    (h : Document.end_tag d n = some d') : d'.depth + 1 = d.depth := by
  unfold Document.end_tag at h
  split at h
  · cases h
  · next hdep =>
    split at h
    · next ind heq =>
      split at h
      · injection h with h'
        subst h'
        rw [newline_depth]
        change d.depth - 1 + 1 = d.depth
        omega
      · cases h
    · injection h with h'
      subst h'
      rw [newline_depth]
      change d.depth - 1 + 1 = d.depth
      omega

theorem attrs_ok_depth : ∀ (ps : List (Str × Str)) (d d' : Document),
    Document.attrs d ps = .ok d' → d'.depth = d.depth := by
  intro ps
  induction ps with
  | nil =>
    intro d d' h
    simp [Document.attrs] at h
    rw [← h]
  | cons p rest ih =>
    intro d d' h
    rcases p with ⟨n, v⟩
    rw [attrs_cons] at h
    split at h
    · cases h
    · have h2 := ih _ d' h
      simpa using h2

theorem attrs_buf_extends : ∀ (ps : List (Str × Str)) (d : Document),
    (∀ d', Document.attrs d ps = .ok d' → ∃ t, d'.buf = d.buf ++ t)
    ∧ (∀ d' bad, Document.attrs d ps = .panicked d' bad → ∃ t, d'.buf = d.buf ++ t) := by
  intro ps
  induction ps with
  | nil =>
    intro d
    constructor
    · intro d' h
      simp [Document.attrs] at h
      exact ⟨[], by rw [← h]; simp⟩
    · intro d' bad h
      simp [Document.attrs] at h
  | cons p rest ih =>
    intro d
    rcases p with ⟨n, v⟩
    constructor
    · intro d' h
      rw [attrs_cons] at h
      split at h
      · cases h
      · obtain ⟨t, ht⟩ := (ih _).1 _ h
        refine ⟨" ".toList ++ n ++ "=\"".toList ++ escape_into true v ++ "\"".toList ++ t, ?_⟩
        rw [ht]
        simp [List.append_assoc]
    · intro d' bad h
      rw [attrs_cons] at h
      split at h
      · injection h with h1 h2
        subst h1
        refine ⟨" ".toList ++ n ++ "=\"".toList, ?_⟩
        simp [List.append_assoc]
      · obtain ⟨t, ht⟩ := (ih _).2 _ _ h
        refine ⟨" ".toList ++ n ++ "=\"".toList ++ escape_into true v ++ "\"".toList ++ t, ?_⟩
        rw [ht]
        simp [List.append_assoc]

theorem run_depth : ∀ (ops : List Op) (d d' : Document), run d ops = some d' →
    d'.depth + countEndTag ops = d.depth + countCloseStart ops := by
  intro ops
  induction ops with
  | nil =>
    intro d d' h
    simp [run] at h
    rw [h]
    rfl
  | cons op rest ih =>
    intro d d' h
    unfold run at h
    cases hs : step d op with
    | none => rw [hs] at h; cases h
    | some d1 =>
      rw [hs] at h
      have hrec := ih d1 d' h
      cases op with
      | open_tag n =>
        injection hs with hs'
        subst hs'
        simp only [countEndTag, countCloseStart] at *
        have hd : (Document.open_tag d n).depth = d.depth := rfl
        omega
      | attr n v =>
        injection hs with hs'
        subst hs'
        simp only [countEndTag, countCloseStart] at *
        have hd : (Document.attr d n v).depth = d.depth := rfl
        omega
      | attrsOp ps =>
        simp only [step] at hs
        cases hA : Document.attrs d ps with
        | ok d2 =>
          rw [hA] at hs
          injection hs with hs'
          have hd := attrs_ok_depth ps d d2 hA
          rw [hs'] at hd
          simp only [countEndTag, countCloseStart] at *
          omega
        | panicked d2 bad => rw [hA] at hs; cases hs
      | close_start_tag =>
        injection hs with hs'
        subst hs'
        have hd : (Document.close_start_tag d).depth = d.depth + 1 := by
          unfold Document.close_start_tag
          rw [newline_depth]
        simp only [countEndTag, countCloseStart] at *
        omega
      | close_empty_elem_tag =>
        injection hs with hs'
        subst hs'
        have hd : (Document.close_empty_elem_tag d).depth = d.depth := by
          unfold Document.close_empty_elem_tag
          rw [newline_depth]
        simp only [countEndTag, countCloseStart] at *
        omega
      | end_tag n =>
        simp only [step] at hs
        have hd := end_tag_some_depth d n d1 hs
        simp only [countEndTag, countCloseStart] at *
        omega
      | text t =>
        injection hs with hs'
        subst hs'
        have hd : (Document.text d t).depth = d.depth := by
          unfold Document.text
          rw [newline_depth]
        simp only [countEndTag, countCloseStart] at *
        omega

theorem end_tag_terse_buf (db : Str) (dd : Nat) (n : Str) (d' : Document)
    (h : Document.end_tag ⟨db, dd, .terse⟩ n = some d') :
    d'.buf = db ++ "</".toList ++ n ++ ">".toList := by
  unfold Document.end_tag at h
  split at h
  · cases h
  · injection h with h'
    subst h'
    rfl

theorem end_tag_pretty_buf (db : Str) (dd : Nat) (ind : Str) (n : Str) (d' : Document)
    (h : Document.end_tag ⟨db, dd, .pretty ind⟩ n = some d') :
    ∃ b, db = b ++ ind
      ∧ d'.buf = b ++ "</".toList ++ n ++ ">".toList
                   ++ '\n' :: repeatList (dd - 1) ind := by
  unfold Document.end_tag at h
  split at h
  · cases h
  · change (if List.isSuffixOf ind db = true then
        some (Document.newline
          { buf := (db.take (db.length - ind.length)) ++ "</".toList ++ n ++ ">".toList,
            depth := dd - 1, format := Format.pretty ind })
      else none) = some d' at h
    split at h
    · next hsuf =>
      obtain ⟨b, hb⟩ := List.isSuffixOf_iff_suffix.1 hsuf
      injection h with h'
      subst h'
      refine ⟨b, by rw [← hb], ?_⟩
      have htake : db.take (db.length - ind.length) = b := by
        rw [← hb]
        exact List.take_left' (by simp [List.length_append])
      simp [Document.newline, htake, List.append_assoc]
    · cases h

theorem is_name_ne_nil (s : Str) (h : is_name s = true) : s ≠ [] := by
  intro hs
  subst hs
  simp [is_name] at h

theorem nameFinish_ok (out : Str) (buf : List TokenTree) (s : Str) (r : List TokenTree)
    (h : nameFinish out buf = .ok (s, r)) : s = out ∧ out ≠ [] := by
  unfold nameFinish at h
  split at h
  · split at h <;> cases h
  · next hne =>
    injection h with h'
    injection h' with h1 h2
    subst h1
    exact ⟨rfl, by simpa [List.isEmpty_iff] using hne⟩

theorem nameLoop_ok_ne : ∀ (buf : List TokenTree) (e : Bool) (out s : Str)
    (r : List TokenTree), nameLoop e out buf = .ok (s, r) → s ≠ [] := by
  intro buf
  induction buf with
  | nil =>
    intro e out s r h
    unfold nameLoop at h
    obtain ⟨h1, h2⟩ := nameFinish_ok _ _ _ _ h
    rw [h1]
    exact h2
  | cons t rest ih =>
    intro e out s r h
    cases t with
    | ident ts sp =>
      unfold nameLoop at h
      split at h
      · obtain ⟨h1, h2⟩ := nameFinish_ok _ _ _ _ h
        rw [h1]
        exact h2
      · split at h
        · cases h
        · exact ih false (out ++ ts) s r h
    | lit txt sv sp =>
      unfold nameLoop at h
      split at h
      · exact ih e (out ++ txt) s r h
      · obtain ⟨h1, h2⟩ := nameFinish_ok _ _ _ _ h
        rw [h1]
        exact h2
    | punct c sp =>
      unfold nameLoop at h
      split at h
      · exact ih true (out ++ [c]) s r h
      · obtain ⟨h1, h2⟩ := nameFinish_ok _ _ _ _ h
        rw [h1]
        exact h2
    | group dl inner sp =>
      unfold nameLoop at h
      obtain ⟨h1, h2⟩ := nameFinish_ok _ _ _ _ h
      rw [h1]
      exact h2

theorem attrs_all_valid : ∀ (ps : List (Str × Str)) (d : Document),
    (∀ p ∈ ps, is_name p.1 = true) →
    Document.attrs d ps = .ok { d with buf := d.buf ++ concatAttrTexts ps } := by
  intro ps
  induction ps with
  | nil =>
    intro d _
    simp [Document.attrs, concatAttrTexts]
  | cons p rest ih =>
    intro d hval
    rcases p with ⟨n, v⟩
    rw [attrs_cons]
    have hn : is_name n = true := hval (n, v) (by simp)
    rw [if_neg (by simp [hn])]
    have hrest : ∀ p ∈ rest, is_name p.1 = true := by
      intro p hp
      exact hval p (List.mem_cons_of_mem _ hp)
    rw [ih _ hrest]
    simp [concatAttrTexts, attrText, List.append_assoc]

theorem attrs_first_invalid : ∀ (pre : List (Str × Str)) (d : Document) (n v : Str)
    (post : List (Str × Str)), (∀ p ∈ pre, is_name p.1 = true) → is_name n = false →
    Document.attrs d (pre ++ (n, v) :: post)
      = .panicked { d with buf := d.buf ++ concatAttrTexts pre
                           ++ " ".toList ++ n ++ "=\"".toList } n := by
  intro pre
  induction pre with
  | nil =>
    intro d n v post _ hn
    rw [List.nil_append, attrs_cons, if_pos hn]
    simp [concatAttrTexts]
  | cons p rest ih =>
    intro d n v post hval hn
    rcases p with ⟨n0, v0⟩
    rw [List.cons_append, attrs_cons]
    have hn0 : is_name n0 = true := hval (n0, v0) (by simp)
    rw [if_neg (by simp [hn0])]
    have hrest : ∀ p ∈ rest, is_name p.1 = true := by
      intro p hp
      exact hval p (List.mem_cons_of_mem _ hp)
    rw [ih _ n v post hrest hn]
    simp [concatAttrTexts, attrText, List.append_assoc]

/-! Claim theorems. -/

/-- Claim C1, counterexample to the claim as stated: the input `"` contains
a double quote, yet the output of `text` (quote-escaping disabled) contains
that quote literally, not as `&quot;`. -/
theorem c1_text_quote_counterexample :
    '"' ∈ (['"'] : Str) ∧ '"' ∈ (Document.text ⟨[], 0, Format.terse⟩ ['"']).buf := by
  decide

/-- Claim C1 (amended): with quote-escaping enabled (attr values) the
escaped output contains no literal `<`, `>`, or `"` and every `&` only as
the start of an entity form; with quote-escaping disabled (text content)
the same holds for `<`, `>` and `&` but a literal `"` may remain; in both
modes decoding the entity forms recovers the input exactly; `attr` writes
its value through the quote-escaping pass and `text` through the
non-quote-escaping pass. -/
theorem c1_escaping :
    (∀ s : Str, '<' ∉ escape_into true s ∧ '>' ∉ escape_into true s
      ∧ '"' ∉ escape_into true s ∧ onlyEntityAmps (escape_into true s) = true)
  ∧ (∀ s : Str, '<' ∉ escape_into false s ∧ '>' ∉ escape_into false s
      ∧ onlyEntityAmps (escape_into false s) = true)
  ∧ (∀ (q : Bool) (s : Str), unescape (escape_into q s) = s)
  ∧ (∀ (d : Document) (n v : Str),
      (Document.attr d n v).buf
        = d.buf ++ " ".toList ++ n ++ "=\"".toList ++ escape_into true v ++ "\"".toList)
  ∧ (∀ (d : Document) (t : Str), ∃ nl : Str,
      (Document.text d t).buf = d.buf ++ escape_into false t ++ nl) := by
  refine ⟨?_, ?_, unescape_escape_into, fun d n v => rfl, ?_⟩
  · intro s
    exact ⟨not_mem_escape_into true '<' (Or.inl rfl) s,
           not_mem_escape_into true '>' (Or.inr (Or.inl rfl)) s,
           not_mem_escape_into true '"' (Or.inr (Or.inr ⟨rfl, rfl⟩)) s,
           oea_escape_into true s⟩
  · intro s
    exact ⟨not_mem_escape_into false '<' (Or.inl rfl) s,
           not_mem_escape_into false '>' (Or.inr (Or.inl rfl)) s,
           oea_escape_into false s⟩
  · intro d t
    obtain ⟨nl, hnl⟩ := newline_buf { d with buf := d.buf ++ escape_into false t }
    refine ⟨nl, ?_⟩
    show (Document.newline { d with buf := d.buf ++ escape_into false t }).buf = _
    rw [hnl]

/-- Claim C1 witness: the amended theorem evaluated at a concrete input. -/
theorem c1_escaping_witness :
    unescape (escape_into true "a<b".toList) = "a<b".toList
    ∧ '<' ∉ escape_into true "a<b".toList :=
  ⟨c1_escaping.2.2.1 true "a<b".toList, (c1_escaping.1 "a<b".toList).1⟩

/-- Claim C2 (confirmed): `close_start_tag` increments depth by one,
a successful `end_tag` decrements it by one, `end_tag` at depth 0 fails
fatally, `new` initializes depth to 0, every other operation preserves
depth, and over any successfully executed operation sequence the final
depth plus the number of `end_tag`s equals the initial depth plus the
number of `close_start_tag`s. -/
theorem c2_depth_invariant :
    (∀ d : Document, (Document.close_start_tag d).depth = d.depth + 1)
  ∧ (∀ (d : Document) (n : Str) (d' : Document),
      Document.end_tag d n = some d' → d'.depth + 1 = d.depth)
  ∧ (∀ (d : Document) (n : Str), d.depth = 0 → Document.end_tag d n = none)
  ∧ (∀ (v : Version) (s : Option Bool) (f : Format), (Document.new v s f).depth = 0)
  ∧ (∀ (d : Document) (n : Str), (Document.open_tag d n).depth = d.depth)
  ∧ (∀ (d : Document) (n v : Str), (Document.attr d n v).depth = d.depth)
  ∧ (∀ (d : Document) (ps : List (Str × Str)) (d' : Document),
      step d (.attrsOp ps) = some d' → d'.depth = d.depth)
  ∧ (∀ d : Document, (Document.close_empty_elem_tag d).depth = d.depth)
  ∧ (∀ (d : Document) (t : Str), (Document.text d t).depth = d.depth)
  ∧ (∀ (ops : List Op) (d d' : Document), run d ops = some d' →
      d'.depth + countEndTag ops = d.depth + countCloseStart ops) := by
  refine ⟨?_, end_tag_some_depth, end_tag_zero, ?_, fun d n => rfl, fun d n v => rfl,
          ?_, ?_, ?_, run_depth⟩
  · intro d
    unfold Document.close_start_tag
    rw [newline_depth]
  · intro v s f
    simp [Document.new, newline_depth]
  · intro d ps d' h
    simp only [step] at h
    cases hA : Document.attrs d ps with
    | ok d2 =>
      rw [hA] at h
      injection h with h'
      rw [← h']
      exact attrs_ok_depth ps d d2 hA
    | panicked d2 bad => rw [hA] at h; cases h
  · intro d
    simp [Document.close_empty_elem_tag, newline_depth]
  · intro d t
    unfold Document.text
    rw [newline_depth]

/-- Claim C2 witness: the depth invariant evaluated on concrete documents
and a concrete operation sequence. -/
theorem c2_depth_invariant_witness :
    ((⟨"x</r>".toList, 0, Format.terse⟩ : Document).depth + 1
      = (⟨"x".toList, 1, Format.terse⟩ : Document).depth)
    ∧ ((⟨">".toList, 1, Format.terse⟩ : Document).depth + countEndTag [Op.close_start_tag]
      = (⟨([] : Str), 0, Format.terse⟩ : Document).depth
          + countCloseStart [Op.close_start_tag]) :=
  ⟨c2_depth_invariant.2.1 ⟨"x".toList, 1, Format.terse⟩ "r".toList
      ⟨"x</r>".toList, 0, Format.terse⟩ (by rfl),
   c2_depth_invariant.2.2.2.2.2.2.2.2.2 [Op.close_start_tag]
      ⟨[], 0, Format.terse⟩ ⟨">".toList, 1, Format.terse⟩ (by rfl)⟩

/-- Claim C3 (confirmed): `attrs` processes the pairs in iteration order;
when every name is valid it appends exactly the attribute texts (values
escaped with quote-escaping enabled); when it reaches the first pair with
an invalid name it panics right after writing that pair's ` name="`,
leaving all earlier pairs' attribute texts in the buffer. -/
theorem c3_attrs_batch :
    (∀ (d : Document) (ps : List (Str × Str)), (∀ p ∈ ps, is_name p.1 = true) →
      Document.attrs d ps = .ok { d with buf := d.buf ++ concatAttrTexts ps })
  ∧ (∀ (d : Document) (pre : List (Str × Str)) (n v : Str) (post : List (Str × Str)),
      (∀ p ∈ pre, is_name p.1 = true) → is_name n = false →
      Document.attrs d (pre ++ (n, v) :: post)
        = .panicked { d with buf := d.buf ++ concatAttrTexts pre
                             ++ " ".toList ++ n ++ "=\"".toList } n) :=
  ⟨fun d ps h => attrs_all_valid ps d h,
   fun d pre n v post h hn => attrs_first_invalid pre d n v post h hn⟩

/-- Claim C3 witness: a batch whose second pair has the invalid name
`a b` panics with the first pair's attribute left in the buffer. -/
theorem c3_attrs_batch_witness :
    Document.attrs ⟨[], 0, Format.terse⟩ ([(['a'], ['1'])] ++ ("a b".toList, ['x']) :: [])
      = .panicked ⟨([] : Str) ++ concatAttrTexts [(['a'], ['1'])]
          ++ " ".toList ++ "a b".toList ++ "=\"".toList, 0, Format.terse⟩ "a b".toList :=
  c3_attrs_batch.2 ⟨[], 0, Format.terse⟩ [(['a'], ['1'])] "a b".toList ['x'] []
    (by decide) (by decide)

/-- Claim C4 (code_bug): evaluation at the failing input. The name parser's
numeric-literal branch ignores `eat_non_punct`, so a numeric literal
directly following an identifier IS consumed and appended, producing
`foo27`, contrary to the claim (and to the rule table in the function's own
comment, which says ident followed by num_lit must stop). -/
theorem c4_literal_after_ident_eval :
    parseName [.ident "foo".toList 0, .lit "27".toList none 1, .punct '>' 2]
      = .ok ("foo27".toList, [.punct '>' 2]) := by rfl

/-- Claim C5 (code_bug): evaluation at the failing input. `Document::new`
writes the standalone value without surrounding double quotes
(` standalone=yes` rather than ` standalone="yes"`), which is ill-formed
XML; everything else about the prolog matches the claim. -/
theorem c5_standalone_unquoted_eval :
    Document.new .v1_0 (some true) .terse
      = ⟨"<?xml version=\"1.0\" encoding=\"UTF-8\" standalone=yes?>".toList,
          0, .terse⟩ := by rfl

/-- Claim C6, counterexample to the claim as stated: a successful run of
the name parser on a single numeric-literal token `27` produces the name
`27`, which is not a valid XML Name (it starts with a digit). -/
theorem c6_leading_digit_counterexample :
    parseName [.lit "27".toList none 0] = .ok ("27".toList, [])
    ∧ is_name "27".toList = false := ⟨rfl, rfl⟩

/-- Claim C6 (amended): every successful run of the name parser produces a
non-empty string, and every name produced via the string-literal escape
hatch is a valid XML Name; the multi-token heuristic path performs no such
validation and can yield an invalid name. -/
theorem c6_name_validity (buf : List TokenTree) (s : Str) (rest : List TokenTree)
    (h : parseName buf = .ok (s, rest)) :
    s ≠ [] ∧ (∀ (txt v : Str) (sp : Nat) (r : List TokenTree),
      buf = .lit txt (some v) sp :: r → is_name s = true) := by
  cases buf with
  | nil => cases h
  | cons t r0 =>
    unfold parseName at h
    cases hsl : string_lit t with
    | some v0 =>
      simp only [hsl] at h
      split at h
      · cases h
      · next hv =>
        injection h with h'
        injection h' with h1 h2
        subst h1
        have hn : is_name v0 = true := by
          revert hv
          cases is_name v0 <;> simp
        constructor
        · exact is_name_ne_nil _ hn
        · intro _ _ _ _ _
          exact hn
    | none =>
      simp only [hsl] at h
      constructor
      · exact nameLoop_ok_ne _ _ _ _ _ h
      · intro txt v sp r heq
        injection heq with he1 he2
        rw [he1] at hsl
        simp [string_lit] at hsl

/-- Claim C6 witness: the theorem applied to the string-literal token
`"a"`, whose parse succeeds with the non-empty name `a`. -/
theorem c6_name_validity_witness : (['a'] : Str) ≠ [] :=
  (c6_name_validity [TokenTree.lit ['"', 'a', '"'] (some ['a']) 0] ['a'] [] (by rfl)).1

/-- Claim C7 (confirmed): the driver sequence new, open_tag foo,
close_start_tag, text hi, end_tag foo under Pretty format with two-space
indentation produces exactly the expected document, with `end_tag`
stripping one trailing indentation unit before writing `</foo>`. -/
theorem c7_pretty_output :
    Document.end_tag (Document.text (Document.close_start_tag (Document.open_tag
        (Document.new .v1_0 none (.pretty "  ".toList)) "foo".toList)) "hi".toList)
        "foo".toList
      = some ⟨"<?xml version=\"1.0\" encoding=\"UTF-8\"?>\n<foo>\n  hi\n</foo>\n".toList,
              0, .pretty "  ".toList⟩ := by rfl

/-- Claim C8 (confirmed): when the end tag spells out a name different from
the start tag's name, parsing fails with the "does not match" error
carrying the span of the end tag's `<` token; the `</>` shorthand always
closes the currently expected element; and a full element parse of
`foo></bar>` (after the opening `<`) produces an error, not an AST. -/
theorem c8_end_tag_matching :
    (∀ (name : Str) (sp sp2 : Nat) (t : TokenTree) (rest2 : List TokenTree)
        (m : Str) (rest' : List TokenTree),
      is_punct t '>' = false → parseName (t :: rest2) = .ok (m, rest') → m ≠ name →
      parseEndTag name (.punct '<' sp :: .punct '/' sp2 :: t :: rest2)
        = .error ⟨some sp, "end tag " ++ String.mk m
            ++ " does not match start tag " ++ String.mk name⟩)
  ∧ (∀ (name : Str) (sp sp2 sp3 : Nat) (rest : List TokenTree),
      parseEndTag name (.punct '<' sp :: .punct '/' sp2 :: .punct '>' sp3 :: rest)
        = .ok rest)
  ∧ parseElement 10 [.ident "foo".toList 0, .punct '>' 1, .punct '<' 2, .punct '/' 3,
        .ident "bar".toList 4, .punct '>' 5]
      = .error ⟨some 2, "end tag bar does not match start tag foo"⟩ := by
  refine ⟨?_, fun name sp sp2 sp3 rest => rfl, by rfl⟩
  intro name sp sp2 t rest2 m rest' ht hp hm
  unfold parseEndTag
  simp [expect_punct, ht, hp, hm]

/-- Claim C8 witness: the mismatch branch evaluated on the concrete end tag
`</bar>` against expected name `foo`. -/
theorem c8_end_tag_matching_witness :
    parseEndTag "foo".toList
        [.punct '<' 2, .punct '/' 3, .ident "bar".toList 4, .punct '>' 5]
      = .error ⟨some 2, "end tag " ++ String.mk "bar".toList
          ++ " does not match start tag " ++ String.mk "foo".toList⟩ :=
  c8_end_tag_matching.1 "foo".toList 2 3 (.ident "bar".toList 4) [.punct '>' 5]
    "bar".toList [.punct '>' 5] (by rfl) (by rfl) (by decide)

/-- Claim C9, counterexample to the claim as stated: `open_tag` performs no
Name assertion; invoked with the invalid name `a b` it emits the malformed
name into the buffer instead of faulting. -/
theorem c9_invalid_name_emitted :
    is_name "a b".toList = false
    ∧ (Document.open_tag ⟨[], 0, Format.terse⟩ "a b".toList).buf = "<a b".toList :=
  ⟨rfl, rfl⟩

/-- Claim C9 (amended): `open_tag` writes `<name` unconditionally and
`attr` writes ` name="` followed by the quote-escaped value and the closing
quote unconditionally; neither validates the name, so invalid names are
emitted rather than faulting. -/
theorem c9_unchecked_write :
    (∀ (d : Document) (name : Str),
      (Document.open_tag d name).buf = d.buf ++ "<".toList ++ name
      ∧ (Document.open_tag d name).depth = d.depth)
  ∧ (∀ (d : Document) (name value : Str),
      (Document.attr d name value).buf
        = d.buf ++ " ".toList ++ name ++ "=\"".toList
            ++ escape_into true value ++ "\"".toList) :=
  ⟨fun d n => ⟨rfl, rfl⟩, fun d n v => rfl⟩

/-- Claim C10 (confirmed): every emitter operation except `end_tag` under
Pretty format only appends to the buffer; `end_tag` under Pretty format
removes exactly one trailing indentation unit (the buffer must end with
it) and then appends `</name>` plus the newline and indentation. -/
theorem c10_append_only :
    (∀ (d : Document) (n : Str), ∃ t, (Document.open_tag d n).buf = d.buf ++ t)
  ∧ (∀ (d : Document) (n v : Str), ∃ t, (Document.attr d n v).buf = d.buf ++ t)
  ∧ (∀ (d : Document) (ps : List (Str × Str)),
      (∀ d', Document.attrs d ps = .ok d' → ∃ t, d'.buf = d.buf ++ t)
      ∧ (∀ d' bad, Document.attrs d ps = .panicked d' bad → ∃ t, d'.buf = d.buf ++ t))
  ∧ (∀ d : Document, ∃ t, (Document.close_start_tag d).buf = d.buf ++ t)
  ∧ (∀ d : Document, ∃ t, (Document.close_empty_elem_tag d).buf = d.buf ++ t)
  ∧ (∀ (d : Document) (s : Str), ∃ t, (Document.text d s).buf = d.buf ++ t)
  ∧ (∀ (d : Document) (n : Str) (d' : Document), d.format = .terse →
      Document.end_tag d n = some d' → ∃ t, d'.buf = d.buf ++ t)
  ∧ (∀ (d : Document) (n : Str) (d' : Document) (ind : Str), d.format = .pretty ind →
      Document.end_tag d n = some d' →
      ∃ b, d.buf = b ++ ind
        ∧ d'.buf = b ++ "</".toList ++ n ++ ">".toList
                     ++ '\n' :: repeatList (d.depth - 1) ind) := by
  refine ⟨?_, ?_, fun d ps => attrs_buf_extends ps d, ?_, ?_, ?_, ?_, ?_⟩
  · intro d n
    exact ⟨"<".toList ++ n, by simp [Document.open_tag, List.append_assoc]⟩
  · intro d n v
    exact ⟨" ".toList ++ n ++ "=\"".toList ++ escape_into true v ++ "\"".toList,
      by simp [Document.attr, List.append_assoc]⟩
  · intro d
    obtain ⟨t, ht⟩ := newline_buf { d with buf := d.buf ++ ">".toList, depth := d.depth + 1 }
    refine ⟨">".toList ++ t, ?_⟩
    show (Document.newline { d with buf := d.buf ++ ">".toList, depth := d.depth + 1 }).buf = _
    rw [ht]
    simp [List.append_assoc]
  · intro d
    rcases d with ⟨db, dd, fmt⟩
    cases fmt with
    | terse => exact ⟨"/>".toList, rfl⟩
    | pretty ind =>
      refine ⟨" />".toList ++ '\n' :: repeatList dd ind, ?_⟩
      show (db ++ " />".toList) ++ '\n' :: repeatList dd ind = _
      simp [List.append_assoc]
  · intro d s
    obtain ⟨t, ht⟩ := newline_buf { d with buf := d.buf ++ escape_into false s }
    refine ⟨escape_into false s ++ t, ?_⟩
    show (Document.newline { d with buf := d.buf ++ escape_into false s }).buf = _
    rw [ht]
    simp [List.append_assoc]
  · intro d n d' hf h
    rcases d with ⟨db, dd, fmt⟩
    have hf' : fmt = Format.terse := hf
    subst hf'
    have hb := end_tag_terse_buf db dd n d' h
    refine ⟨"</".toList ++ n ++ ">".toList, ?_⟩
    rw [hb]
    simp [List.append_assoc]
  · intro d n d' ind hf h
    rcases d with ⟨db, dd, fmt⟩
    have hf' : fmt = Format.pretty ind := hf
    subst hf'
    exact end_tag_pretty_buf db dd ind n d' h

/-- Claim C10 witness: the Pretty `end_tag` conjunct evaluated on a
concrete document whose buffer ends with one indentation unit. -/
theorem c10_append_only_witness :
    ∃ b, "<a>\n  ".toList = b ++ "  ".toList
      ∧ "<a>\n</a>\n".toList = b ++ "</".toList ++ "a".toList ++ ">".toList
          ++ '\n' :: repeatList 0 "  ".toList :=
  c10_append_only.2.2.2.2.2.2.2 ⟨"<a>\n  ".toList, 1, Format.pretty "  ".toList⟩
    "a".toList ⟨"<a>\n</a>\n".toList, 0, Format.pretty "  ".toList⟩ "  ".toList
    (by rfl) (by rfl)
